import Mathlib

/-!
Shallow embedding of the usage/cost aggregation core of
`anthropic_api.py` (claude-usage-tracker): the `UsageData` figures
type, `_combine_data`, `_friendly_model_name`, `_get_date_range`, the
cost-window widening of `_fetch_cost`, and `format_reset_time`.

Conventions of the embedding:
* Python `int` token counts are `Nat`; `float` monetary amounts are
  modelled as exact rationals `ℚ` (the spec's "non-negative real").
* JSON rows are structures whose numeric fields already carry the
  `dict.get(key, 0)` defaulting of the source (an absent numeric field
  is the field being `0`); genuinely optional string fields are
  `Option String`.
* Instants are seconds since the Unix epoch (`Int`); Python's
  floor-convention `divmod` on timedeltas is `Int.ediv`/`Int.emod`,
  which agree with floor division for the positive divisors used here.
-/

namespace UsageTracker

/-- `UsageData` dataclass: container for usage statistics, with the
defaults `(0, 0, 0, 0.0)` of the Python constructor. -/
structure UsageData where
  input_tokens : Nat := 0
  output_tokens : Nat := 0
  total_tokens : Nat := 0
  cost_usd : ℚ := 0
deriving Repr, DecidableEq

/-- `UsageData.__add__`: component-wise addition. -/
def UsageData.add (a b : UsageData) : UsageData :=
  { input_tokens := a.input_tokens + b.input_tokens
    output_tokens := a.output_tokens + b.output_tokens
    total_tokens := a.total_tokens + b.total_tokens
    cost_usd := a.cost_usd + b.cost_usd }

/-- The nested `cache_creation` object of a usage-report row; each
field defaults to `0` when absent (`cache_creation.get(..., 0)`). -/
structure CacheCreation where
  ephemeral_1h_input_tokens : Nat := 0
  ephemeral_5m_input_tokens : Nat := 0
deriving Repr, DecidableEq

/-- One result row of a usage-report day bucket.  The same endpoint
schema serves both grouping dimensions, so a row carries both the
optional `model` key and the optional `api_key_id` key; numeric fields
default to `0` when absent (`item.get(..., 0)`). -/
structure UsageRow where
  model : Option String := none
  api_key_id : Option String := none
  uncached_input_tokens : Nat := 0
  cache_read_input_tokens : Nat := 0
  cache_creation : CacheCreation := {}
  output_tokens : Nat := 0
deriving Repr, DecidableEq

/-- A day bucket: `{"results": [...]}` with `bucket.get("results", [])`
defaulting folded in. -/
structure Bucket (α : Type) where
  results : List α
deriving Repr, DecidableEq

/-- One result row of a cost-report bucket: `{"amount": ...}` with the
`float(item.get("amount", 0))` defaulting folded in. -/
structure CostRow where
  amount : ℚ := 0
deriving Repr, DecidableEq

/-- `ModelUsage` dataclass: usage breakdown by model. -/
structure ModelUsage where
  model : String
  usage : UsageData
deriving Repr, DecidableEq

/-- `ApiKeyUsage` dataclass: usage breakdown by API key. -/
structure ApiKeyUsage where
  key_id : String
  key_hint : String
  usage : UsageData
deriving Repr, DecidableEq

/-- The combined result dict of `_combine_data`:
`{"total": ..., "by_model": [...], "by_key": [...]}`. -/
structure Report where
  total : UsageData
  by_model : List ModelUsage
  by_key : List ApiKeyUsage
deriving Repr, DecidableEq

/-- Is `needle` a contiguous infix of the character list? -/
def infixOfB (needle : List Char) : List Char → Bool
  | [] => needle.isEmpty
  | c :: cs => needle.isPrefixOf (c :: cs) || infixOfB needle cs

/-- Substring test: Python's `needle in haystack`. -/
def strContains (haystack needle : String) : Bool :=
  infixOfB needle.toList haystack.toList

/-- Python's `str.lower()` (ASCII case folding suffices for the
keywords tested here). -/
def strLower (s : String) : String := ⟨s.data.map Char.toLower⟩

/-- `_friendly_model_name`: convert model ID to friendly name by
case-insensitive keyword test, in the source's priority order. -/
def friendly_model_name (model : String) : String :=
  if strContains (strLower model) "opus" then "Opus"
  else if strContains (strLower model) "sonnet" then "Sonnet"
  else if strContains (strLower model) "haiku" then "Haiku"
  else model

/-- One `defaultdict` accumulation step
`totals[key]["input"] += i; totals[key]["output"] += o`, on an
association list in insertion order: a new key is appended at the end,
an existing key is updated in place (Python dicts iterate in insertion
order). -/
def bump (totals : List (String × Nat × Nat)) (key : String) (i o : Nat) :
    List (String × Nat × Nat) :=
  match totals with
  | [] => [(key, i, o)]
  | (k, i0, o0) :: rest =>
    if k = key then (k, i0 + i, o0 + o) :: rest
    else (k, i0, o0) :: bump rest key i o

/-- The double loop `for bucket in ...: for item in bucket["results"]`,
accumulating into the `defaultdict` keyed by `rowKey`; `rowInput` and
`rowOutput` are the per-row effective token computations. -/
def accumulate (rowKey : UsageRow → String) (rowInput rowOutput : UsageRow → Nat)
    (buckets : List (Bucket UsageRow)) : List (String × Nat × Nat) :=
  buckets.foldl
    (fun acc b =>
      b.results.foldl (fun a r => bump a (rowKey r) (rowInput r) (rowOutput r)) acc)
    []

/-- The raw model identifier of a row: `item.get("model", "unknown")`. -/
def rawModel (r : UsageRow) : String := r.model.getD "unknown"

/-- The grouping key of the per-model loop: the friendly name of the
row's raw model identifier. -/
def modelKey (r : UsageRow) : String := friendly_model_name (rawModel r)

/-- The per-model effective input tokens:
`uncached_input_tokens + cache_read_input_tokens` plus both
`cache_creation` sub-categories. -/
def modelInput (r : UsageRow) : Nat :=
  r.uncached_input_tokens + r.cache_read_input_tokens
    + r.cache_creation.ephemeral_1h_input_tokens
    + r.cache_creation.ephemeral_5m_input_tokens

/-- The grouping key of the per-key loop:
`item.get("api_key_id") or "workbench"` — Python truthiness sends both
an absent key and an empty string to `"workbench"`. -/
def credKey (r : UsageRow) : String :=
  match r.api_key_id with
  | none => "workbench"
  | some s => if s = "" then "workbench" else s

/-- The per-key effective input tokens:
`uncached_input_tokens + cache_read_input_tokens` only (the key loop
reads no `cache_creation` field). -/
def credInput (r : UsageRow) : Nat :=
  r.uncached_input_tokens + r.cache_read_input_tokens

/-- The display hint for an API key id:
`"Workbench"` for the synthetic `workbench` id, `"..."` plus the last
six characters (`key_id[-6:]`) when longer than six characters, else
the id verbatim. -/
def keyHint (key_id : String) : String :=
  if key_id = "workbench" then "Workbench"
  else if key_id.length > 6 then "..." ++ key_id.drop (key_id.length - 6)
  else key_id

/-- `UsageData(input_tokens=i, output_tokens=o, total_tokens=i+o)`, the
constructor call of the two summary loops (cost left at its `0.0`
default). -/
def mkUsage (i o : Nat) : UsageData :=
  { input_tokens := i, output_tokens := o, total_tokens := i + o, cost_usd := 0 }

/-- Stable descending insertion: place `x` before the first element
whose key is not greater than `x`'s (so among equal keys, the earlier
element stays first). -/
def insertDesc (key : α → Nat) (x : α) : List α → List α
  | [] => [x]
  | y :: ys => if key x < key y then y :: insertDesc key x ys else x :: y :: ys

/-- Stable sort, descending by `key`: the behaviour of Python's stable
`list.sort(key=..., reverse=True)`. -/
def sortDesc (key : α → Nat) : List α → List α
  | [] => []
  | x :: xs => insertDesc key x (sortDesc key xs)

/-- The total-cost loop of `_combine_data`: sum the `amount` of every
row of every cost bucket. -/
def costTotal (cost_data : List (Bucket CostRow)) : ℚ :=
  cost_data.foldl (fun acc b => b.results.foldl (fun a r => a + r.amount) acc) 0

/-- `_combine_data`: aggregate model-grouped and key-grouped usage
buckets and cost buckets into one report.  The model loop accumulates
by friendly name and folds the grand total over the model summaries;
the key loop accumulates by (defaulted) api key id; both summary lists
are stably sorted descending by total tokens; finally the summed cost
is written onto the grand total (`result["total"].cost_usd = total_cost`). -/
def combine_data (model_usage key_usage : List (Bucket UsageRow))
    (cost_data : List (Bucket CostRow)) : Report :=
  let model_totals := accumulate modelKey modelInput UsageRow.output_tokens model_usage
  let by_model := model_totals.map (fun p => ModelUsage.mk p.1 (mkUsage p.2.1 p.2.2))
  let total := by_model.foldl (fun t m => t.add m.usage) ({} : UsageData)
  let by_model := sortDesc (fun m => m.usage.total_tokens) by_model
  let key_totals := accumulate credKey credInput UsageRow.output_tokens key_usage
  let by_key := key_totals.map (fun p => ApiKeyUsage.mk p.1 (keyHint p.1) (mkUsage p.2.1 p.2.2))
  let by_key := sortDesc (fun k => k.usage.total_tokens) by_key
  let total_cost := costTotal cost_data
  { total := { total with cost_usd := total_cost }
    by_model := by_model
    by_key := by_key }

/-- `_fetch_cost`'s failure handling, modelled on the already-decoded
response: any failure (`except Exception: return []`) yields the empty
bucket list, a success yields `data.get("data", [])`. -/
def fetchCostData (response : Except String (List (Bucket CostRow))) :
    List (Bucket CostRow) :=
  match response with
  | .error _ => []
  | .ok d => d

/-- The window-widening arithmetic of `_fetch_cost` (lines 128–140),
on the parsed instants: `start_dt.replace(hour=0, minute=0, second=0)`
floors the start to its UTC midnight (these instants carry no
sub-second part), and `(end_dt + timedelta(days=1)).replace(...)`
floors the end pushed one day forward. -/
def widen_cost_window (start_dt end_dt : Int) : Int × Int :=
  (start_dt - start_dt % 86400,
   (end_dt + 86400) - (end_dt + 86400) % 86400)

/-- Civil date (year, month, day) of a day count since 1970-01-01, by
the standard era-decomposition algorithm for the proleptic Gregorian
calendar (the calendar Python `datetime` uses). -/
def civilFromDays (z : Int) : Int × Nat × Nat :=
  let zShifted := z + 719468
  let era : Int := zShifted / 146097
  let doe : Nat := (zShifted - era * 146097).toNat
  let yoe : Nat := (doe - doe / 1460 + doe / 36524 - doe / 146096) / 365
  let y : Int := (yoe : Int) + era * 400
  let doy : Nat := doe - (365 * yoe + yoe / 4 - yoe / 100)
  let mp : Nat := (5 * doy + 2) / 153
  let d : Nat := doy - (153 * mp + 2) / 5 + 1
  let m : Nat := if mp < 10 then mp + 3 else mp - 9
  (if m ≤ 2 then y + 1 else y, m, d)

/-- Zero-pad a number below 100 to two digits (`%m`, `%d`, `%H`, `%M`,
`%S`). -/
def pad2 (n : Nat) : String :=
  if n < 10 then "0" ++ toString n else toString n

/-- Zero-pad a year to four digits (`%Y` for the years reachable
here). -/
def pad4 (n : Int) : String :=
  if n < 10 then "000" ++ toString n
  else if n < 100 then "00" ++ toString n
  else if n < 1000 then "0" ++ toString n
  else toString n

/-- `strftime("%Y-%m-%dT%H:%M:%SZ")` of a UTC instant given in seconds
since the epoch. -/
def formatIso (t : Int) : String :=
  let days := t / 86400
  let sod := (t % 86400).toNat
  let ymd := civilFromDays days
  pad4 ymd.1 ++ "-" ++ pad2 ymd.2.1 ++ "-" ++ pad2 ymd.2.2 ++ "T"
    ++ pad2 (sod / 3600) ++ ":" ++ pad2 (sod % 3600 / 60) ++ ":" ++ pad2 (sod % 60) ++ "Z"

/-- `_get_date_range`: `now = datetime.utcnow()` is the `now` argument
(seconds since the epoch); `today_start` replaces the time-of-day with
midnight; the three recognized timeframes pick their start, any other
token falls into the final `else` with the `"today"` values; both
bounds are rendered with `strftime("%Y-%m-%dT%H:%M:%SZ")`. -/
def get_date_range (timeframe : String) (now : Int) : String × String :=
  let today_start := now - now % 86400
  let se :=
    if timeframe = "today" then (today_start, now)
    else if timeframe = "7days" then (today_start - 6 * 86400, now)
    else if timeframe = "30days" then (today_start - 29 * 86400, now)
    else (today_start, now)
  (formatIso se.1, formatIso se.2)

/-- Drop a leading run of decimal digits. -/
def dropDigits : List Char → List Char
  | [] => []
  | c :: cs => if c.isDigit then dropDigits cs else c :: cs

/-- Fuel-indexed worker for `re.sub(r'\.\d+', '', s)`: a dot followed
by at least one digit is removed together with the maximal digit run
after it; every other character is kept.  Fuel at least the list
length makes the fuel-exhausted branch unreachable. -/
def stripFracAux : Nat → List Char → List Char
  | 0, cs => cs
  | _ + 1, [] => []
  | fuel + 1, c :: cs =>
    if c = '.' then
      match cs with
      | [] => [c]
      | d :: _ =>
        if d.isDigit then stripFracAux fuel (dropDigits cs)
        else c :: stripFracAux fuel cs
    else c :: stripFracAux fuel cs

/-- `re.sub(r'\.\d+', '', iso_time)`: strip fractional seconds (and
any other dot-digits run) from the timestamp. -/
def stripFrac (s : String) : String := ⟨stripFracAux s.data.length s.data⟩

/-- The parsed value `datetime.fromisoformat` returns, reduced to what
`format_reset_time` consumes: the absolute instant in seconds, and the
month and day fields (in the timestamp's own timezone) that
`strftime("%b %d")` renders. -/
structure ParsedTime where
  epochSec : Int
  month : Nat
  day : Nat
deriving Repr, DecidableEq

/-- `strftime("%b")`: abbreviated month name (months are 1–12 in every
value `datetime` produces). -/
def monthAbbrev : Nat → String
  | 1 => "Jan"
  | 2 => "Feb"
  | 3 => "Mar"
  | 4 => "Apr"
  | 5 => "May"
  | 6 => "Jun"
  | 7 => "Jul"
  | 8 => "Aug"
  | 9 => "Sep"
  | 10 => "Oct"
  | 11 => "Nov"
  | 12 => "Dec"
  | _ => ""

/-- `format_reset_time`: `None` and the empty string are falsy
(`if not iso_time: return "--"`); otherwise the input is cleaned with
`re.sub(r'\.\d+', '', ...)` and parsed.  The ISO parse
(`datetime.fromisoformat`, including the `'+00:00' → '+0000'` rewrite
fed to it) is modelled by the `parse` parameter; a parse failure is
the `except` branch returning `"?"`.  `diff = dt - now` is a Python
`timedelta`, whose `days`/`seconds` are the floor quotient and
remainder by 86400 (`Int.ediv`/`Int.emod` for this positive divisor);
`now = datetime.now(dt.tzinfo)` is the `nowSec` argument. -/
def format_reset_time (parse : String → Option ParsedTime) (nowSec : Int)
    (iso_time : Option String) : String :=
  match iso_time with
  | none => "--"
  | some s =>
    if s = "" then "--"
    else
      match parse (stripFrac s) with
      | none => "?"
      | some dt =>
        let total := dt.epochSec - nowSec
        let days := total / 86400
        let secs := total % 86400
        if days = 0 then
          let hours := secs / 3600
          let mins := (secs % 3600) / 60
          if hours > 0 then toString hours ++ "h " ++ toString mins ++ "m"
          else toString mins ++ "m"
        else if days = 1 then "Tomorrow"
        else monthAbbrev dt.month ++ " " ++ pad2 dt.day

/-! ### Derived notions used by the theorems -/

/-- All result rows of a bucket list, in bucket order then row order
(the iteration order of the two nested loops). -/
def allRows (buckets : List (Bucket UsageRow)) : List UsageRow :=
  (buckets.map Bucket.results).flatten

/-- Row-level accumulation: the inner loop over a flat row list. -/
def accRows (rowKey : UsageRow → String) (rowInput rowOutput : UsageRow → Nat)
    (acc : List (String × Nat × Nat)) (rows : List UsageRow) :
    List (String × Nat × Nat) :=
  rows.foldl (fun a r => bump a (rowKey r) (rowInput r) (rowOutput r)) acc

/-- The keys of an accumulator, in order. -/
def keysOf (l : List (String × Nat × Nat)) : List String := l.map Prod.fst

/-- The totals recorded for key `n` (`(0, 0)` when absent). -/
def lookupTot (n : String) : List (String × Nat × Nat) → Nat × Nat
  | [] => (0, 0)
  | (k, i, o) :: rest => if k = n then (i, o) else lookupTot n rest

/-- Sum of all recorded input totals. -/
def sumFst (l : List (String × Nat × Nat)) : Nat := (l.map (fun p => p.2.1)).sum

/-- Sum of all recorded output totals. -/
def sumSnd (l : List (String × Nat × Nat)) : Nat := (l.map (fun p => p.2.2)).sum

/-- Append a key if it has not been seen yet. -/
def addKey (ks : List String) (k : String) : List String :=
  if k ∈ ks then ks else ks ++ [k]

/-- The distinct values of a list in order of first encounter. -/
def encounterOrder (names : List String) : List String :=
  names.foldl addKey []

/-- The pre-sort per-model summary list, in first-encounter order of
the friendly names. -/
def modelSummaries (model_usage : List (Bucket UsageRow)) : List ModelUsage :=
  (accumulate modelKey modelInput UsageRow.output_tokens model_usage).map
    (fun p => ModelUsage.mk p.1 (mkUsage p.2.1 p.2.2))

/-- The pre-sort per-key summary list, in first-encounter order of the
(defaulted) api key ids. -/
def keySummaries (key_usage : List (Bucket UsageRow)) : List ApiKeyUsage :=
  (accumulate credKey credInput UsageRow.output_tokens key_usage).map
    (fun p => ApiKeyUsage.mk p.1 (keyHint p.1) (mkUsage p.2.1 p.2.2))

/-! ### Concrete inputs for the witness theorems -/

/-- Two rows whose distinct raw identifiers both normalize to
`"Opus"`. -/
def demoOpusRow1 : UsageRow :=
  { model := some "claude-opus-4-20250514", uncached_input_tokens := 100, output_tokens := 50 }

def demoOpusRow2 : UsageRow :=
  { model := some "claude-3-opus-20240229", uncached_input_tokens := 200, output_tokens := 10 }

def demoModelBuckets : List (Bucket UsageRow) := [⟨[demoOpusRow1, demoOpusRow2]⟩]

/-- Same rows in the reverse order, for the order-independence part. -/
def demoModelBucketsRev : List (Bucket UsageRow) := [⟨[demoOpusRow2]⟩, ⟨[demoOpusRow1]⟩]

/-- A keyed row with nonzero cache-creation counts (which credential
aggregation must ignore) and an unattributed row. -/
def demoKeyRow1 : UsageRow :=
  { api_key_id := some "sk-ant-api03-ABCDE123456", uncached_input_tokens := 40,
    cache_read_input_tokens := 2, cache_creation := ⟨7, 8⟩, output_tokens := 5 }

def demoKeyRow2 : UsageRow :=
  { api_key_id := none, uncached_input_tokens := 30, output_tokens := 3 }

def demoKeyBuckets : List (Bucket UsageRow) := [⟨[demoKeyRow1, demoKeyRow2]⟩]

/-- A concrete stand-in for `datetime.fromisoformat` defined on two
timestamps (both interpreted at UTC offset `+00:00`). -/
def demoParse : String → Option ParsedTime := fun s =>
  if s = "1970-01-01T01:30:00+00:00" then some ⟨5400, 1, 1⟩
  else if s = "1969-12-31T22:00:00+00:00" then some ⟨-7200, 12, 31⟩
  else none

/-! ### Sorting lemmas -/

theorem insertDesc_perm {α : Type} (key : α → Nat) (x : α) (l : List α) :
    List.Perm (insertDesc key x l) (x :: l) := by
  induction l with
  | nil => simp [insertDesc]
  | cons y ys ih =>
    simp only [insertDesc]
    by_cases h : key x < key y
    · rw [if_pos h]
      exact (List.Perm.cons y ih).trans (List.Perm.swap x y ys)
    · rw [if_neg h]

theorem sortDesc_perm {α : Type} (key : α → Nat) (l : List α) :
    List.Perm (sortDesc key l) l := by
  induction l with
  | nil => simp [sortDesc]
  | cons x xs ih =>
    exact (insertDesc_perm key x (sortDesc key xs)).trans (List.Perm.cons x ih)

theorem mem_insertDesc {α : Type} (key : α → Nat) {x y : α} {l : List α}
    (h : y ∈ insertDesc key x l) : y = x ∨ y ∈ l := by
  have := (insertDesc_perm key x l).mem_iff.mp h
  simpa using this

theorem insertDesc_pairwise {α : Type} (key : α → Nat) {x : α} {l : List α}
    (hl : l.Pairwise (fun a b => key b ≤ key a)) :
    (insertDesc key x l).Pairwise (fun a b => key b ≤ key a) := by
  induction l with
  | nil => simp [insertDesc]
  | cons y ys ih =>
    simp only [insertDesc]
    rcases List.pairwise_cons.mp hl with ⟨hy, hys⟩
    by_cases h : key x < key y
    · rw [if_pos h]
      refine List.pairwise_cons.mpr ⟨?_, ih hys⟩
      intro z hz
      rcases mem_insertDesc key hz with rfl | hz2
      · exact Nat.le_of_lt h
      · exact hy z hz2
    · rw [if_neg h]
      refine List.pairwise_cons.mpr ⟨?_, hl⟩
      intro z hz
      rcases List.mem_cons.mp hz with rfl | hz2
      · exact Nat.le_of_not_lt h
      · exact Nat.le_trans (hy z hz2) (Nat.le_of_not_lt h)

theorem sortDesc_pairwise {α : Type} (key : α → Nat) (l : List α) :
    (sortDesc key l).Pairwise (fun a b => key b ≤ key a) := by
  induction l with
  | nil => simp [sortDesc]
  | cons x xs ih => exact insertDesc_pairwise key ih

theorem insertDesc_filter {α : Type} (key : α → Nat) (x : α) (l : List α) (t : Nat) :
    (insertDesc key x l).filter (fun a => key a == t)
      = if key x = t then x :: l.filter (fun a => key a == t)
        else l.filter (fun a => key a == t) := by
  induction l with
  | nil =>
    simp only [insertDesc, List.filter_cons, List.filter_nil]
    by_cases hxt : key x = t
    · simp [hxt]
    · simp [hxt]
  | cons y ys ih =>
    simp only [insertDesc]
    by_cases h : key x < key y
    · rw [if_pos h]
      by_cases hxt : key x = t
      · have hyt : ¬ key y = t := by omega
        rw [if_pos hxt]
        simp [List.filter_cons, hyt, ih, hxt]
      · rw [if_neg hxt]
        by_cases hyt : key y = t
        · simp [List.filter_cons, hyt, ih, hxt]
        · simp [List.filter_cons, hyt, ih, hxt]
    · rw [if_neg h]
      by_cases hxt : key x = t
      · rw [if_pos hxt]
        simp [List.filter_cons, hxt]
      · rw [if_neg hxt]
        simp [List.filter_cons, hxt]

theorem sortDesc_filter {α : Type} (key : α → Nat) (l : List α) (t : Nat) :
    (sortDesc key l).filter (fun a => key a == t)
      = l.filter (fun a => key a == t) := by
  induction l with
  | nil => simp [sortDesc]
  | cons x xs ih =>
    simp only [sortDesc]
    rw [insertDesc_filter]
    by_cases hxt : key x = t
    · rw [if_pos hxt]
      simp [List.filter_cons, hxt, ih]
    · rw [if_neg hxt]
      simp [List.filter_cons, hxt, ih]

/-! ### Accumulator lemmas -/

theorem lookupTot_bump (n k : String) (i o : Nat) (acc : List (String × Nat × Nat)) :
    lookupTot n (bump acc k i o)
      = if k = n then ((lookupTot n acc).1 + i, (lookupTot n acc).2 + o)
        else lookupTot n acc := by
  induction acc with
  | nil =>
    by_cases h : k = n
    · simp [bump, lookupTot, h]
    · simp [bump, lookupTot, h]
  | cons p rest ih =>
    obtain ⟨k0, i0, o0⟩ := p
    simp only [bump]
    by_cases h0 : k0 = k
    · subst h0
      by_cases hn : k0 = n
      · simp [lookupTot, hn]
      · simp [lookupTot, hn]
    · by_cases hn : k0 = n
      · subst hn
        have hkn : ¬ k = k0 := fun h => h0 h.symm
        simp [lookupTot, hkn, if_neg h0]
      · simp [lookupTot, hn, if_neg h0, ih]

theorem keysOf_bump (k : String) (i o : Nat) (acc : List (String × Nat × Nat)) :
    keysOf (bump acc k i o) = addKey (keysOf acc) k := by
  induction acc with
  | nil => simp [bump, keysOf, addKey]
  | cons p rest ih =>
    obtain ⟨k0, i0, o0⟩ := p
    by_cases h0 : k0 = k
    · subst h0
      simp [bump, keysOf, addKey]
    · have hne : ¬ k = k0 := fun h => h0 h.symm
      simp only [bump, if_neg h0]
      have hcons1 : keysOf ((k0, i0, o0) :: bump rest k i o)
          = k0 :: keysOf (bump rest k i o) := rfl
      have hcons2 : keysOf ((k0, i0, o0) :: rest) = k0 :: keysOf rest := rfl
      rw [hcons1, ih, hcons2]
      by_cases hmem : k ∈ keysOf rest
      · have h1 : k ∈ k0 :: keysOf rest := List.mem_cons_of_mem _ hmem
        rw [addKey, if_pos hmem, addKey, if_pos h1]
      · have h1 : k ∉ k0 :: keysOf rest := by
          intro hc
          rcases List.mem_cons.mp hc with he | hm
          · exact hne he
          · exact hmem hm
        rw [addKey, if_neg hmem, addKey, if_neg h1, List.cons_append]

theorem sumFst_bump (k : String) (i o : Nat) (acc : List (String × Nat × Nat)) :
    sumFst (bump acc k i o) = sumFst acc + i := by
  induction acc with
  | nil => simp [bump, sumFst]
  | cons p rest ih =>
    obtain ⟨k0, i0, o0⟩ := p
    simp only [bump]
    by_cases h0 : k0 = k
    · simp [sumFst, h0]
      omega
    · simp [sumFst, if_neg h0] at ih ⊢
      omega

theorem sumSnd_bump (k : String) (i o : Nat) (acc : List (String × Nat × Nat)) :
    sumSnd (bump acc k i o) = sumSnd acc + o := by
  induction acc with
  | nil => simp [bump, sumSnd]
  | cons p rest ih =>
    obtain ⟨k0, i0, o0⟩ := p
    simp only [bump]
    by_cases h0 : k0 = k
    · simp [sumSnd, h0]
      omega
    · simp [sumSnd, if_neg h0] at ih ⊢
      omega

theorem accRows_append (rowKey : UsageRow → String) (rowInput rowOutput : UsageRow → Nat)
    (acc : List (String × Nat × Nat)) (l1 l2 : List UsageRow) :
    accRows rowKey rowInput rowOutput acc (l1 ++ l2)
      = accRows rowKey rowInput rowOutput (accRows rowKey rowInput rowOutput acc l1) l2 := by
  simp [accRows, List.foldl_append]

theorem accumulate_eq_accRows (rowKey : UsageRow → String)
    (rowInput rowOutput : UsageRow → Nat) (buckets : List (Bucket UsageRow)) :
    accumulate rowKey rowInput rowOutput buckets
      = accRows rowKey rowInput rowOutput [] (allRows buckets) := by
  suffices h : ∀ acc, buckets.foldl
      (fun acc b => b.results.foldl
        (fun a r => bump a (rowKey r) (rowInput r) (rowOutput r)) acc) acc
      = accRows rowKey rowInput rowOutput acc (allRows buckets) by
    exact h []
  induction buckets with
  | nil => intro acc; simp [allRows, accRows]
  | cons b bs ih =>
    intro acc
    have hall : allRows (b :: bs) = b.results ++ allRows bs := by
      simp [allRows]
    rw [List.foldl_cons, hall, accRows_append, ih]
    rfl

theorem lookupTot_accRows (n : String) (rowKey : UsageRow → String)
    (rowInput rowOutput : UsageRow → Nat) (acc : List (String × Nat × Nat))
    (rows : List UsageRow) :
    lookupTot n (accRows rowKey rowInput rowOutput acc rows)
      = ((lookupTot n acc).1 + ((rows.filter (fun r => rowKey r == n)).map rowInput).sum,
         (lookupTot n acc).2 + ((rows.filter (fun r => rowKey r == n)).map rowOutput).sum) := by
  induction rows generalizing acc with
  | nil => simp [accRows]
  | cons r rest ih =>
    have hstep : accRows rowKey rowInput rowOutput acc (r :: rest)
        = accRows rowKey rowInput rowOutput
            (bump acc (rowKey r) (rowInput r) (rowOutput r)) rest := rfl
    rw [hstep, ih, lookupTot_bump]
    by_cases h : rowKey r = n
    · simp [List.filter_cons, h]
      omega
    · simp [List.filter_cons, h]

theorem sumFst_accRows (rowKey : UsageRow → String) (rowInput rowOutput : UsageRow → Nat)
    (acc : List (String × Nat × Nat)) (rows : List UsageRow) :
    sumFst (accRows rowKey rowInput rowOutput acc rows)
      = sumFst acc + (rows.map rowInput).sum := by
  induction rows generalizing acc with
  | nil => simp [accRows]
  | cons r rest ih =>
    have hstep : accRows rowKey rowInput rowOutput acc (r :: rest)
        = accRows rowKey rowInput rowOutput
            (bump acc (rowKey r) (rowInput r) (rowOutput r)) rest := rfl
    rw [hstep, ih, sumFst_bump]
    simp
    omega

theorem sumSnd_accRows (rowKey : UsageRow → String) (rowInput rowOutput : UsageRow → Nat)
    (acc : List (String × Nat × Nat)) (rows : List UsageRow) :
    sumSnd (accRows rowKey rowInput rowOutput acc rows)
      = sumSnd acc + (rows.map rowOutput).sum := by
  induction rows generalizing acc with
  | nil => simp [accRows]
  | cons r rest ih =>
    have hstep : accRows rowKey rowInput rowOutput acc (r :: rest)
        = accRows rowKey rowInput rowOutput
            (bump acc (rowKey r) (rowInput r) (rowOutput r)) rest := rfl
    rw [hstep, ih, sumSnd_bump]
    simp
    omega

theorem keysOf_accRows (rowKey : UsageRow → String) (rowInput rowOutput : UsageRow → Nat)
    (acc : List (String × Nat × Nat)) (rows : List UsageRow) :
    keysOf (accRows rowKey rowInput rowOutput acc rows)
      = (rows.map rowKey).foldl addKey (keysOf acc) := by
  induction rows generalizing acc with
  | nil => simp [accRows]
  | cons r rest ih =>
    have hstep : accRows rowKey rowInput rowOutput acc (r :: rest)
        = accRows rowKey rowInput rowOutput
            (bump acc (rowKey r) (rowInput r) (rowOutput r)) rest := rfl
    rw [hstep, ih, keysOf_bump]
    rfl

theorem mem_addKey {ks : List String} {k x : String} :
    x ∈ addKey ks k ↔ x ∈ ks ∨ x = k := by
  by_cases h : k ∈ ks
  · simp only [addKey, if_pos h]
    constructor
    · exact fun hx => Or.inl hx
    · rintro (hx | rfl)
      · exact hx
      · exact h
  · simp [addKey, if_neg h]

theorem mem_foldl_addKey (names : List String) :
    ∀ (init : List String) (x : String),
      x ∈ names.foldl addKey init ↔ x ∈ init ∨ x ∈ names := by
  induction names with
  | nil => intro init x; simp
  | cons n ns ih =>
    intro init x
    rw [List.foldl_cons, ih]
    rw [mem_addKey]
    simp [List.mem_cons]
    tauto

theorem nodup_addKey {ks : List String} {k : String} (h : ks.Nodup) :
    (addKey ks k).Nodup := by
  by_cases hk : k ∈ ks
  · simpa [addKey, if_pos hk] using h
  · rw [addKey, if_neg hk]
    simp [List.nodup_append, h, hk]

theorem nodup_foldl_addKey (names : List String) :
    ∀ init : List String, init.Nodup → (names.foldl addKey init).Nodup := by
  induction names with
  | nil => intro init h; simpa using h
  | cons n ns ih =>
    intro init h
    exact ih (addKey init n) (nodup_addKey h)

theorem encounterOrder_nodup (names : List String) : (encounterOrder names).Nodup :=
  nodup_foldl_addKey names [] List.nodup_nil

theorem mem_encounterOrder (names : List String) (x : String) :
    x ∈ encounterOrder names ↔ x ∈ names := by
  rw [encounterOrder, mem_foldl_addKey]
  simp

theorem lookupTot_of_mem {l : List (String × Nat × Nat)} {k : String} {i o : Nat}
    (hnd : (keysOf l).Nodup) (h : (k, i, o) ∈ l) : lookupTot k l = (i, o) := by
  induction l with
  | nil => simp at h
  | cons p rest ih =>
    obtain ⟨k0, i0, o0⟩ := p
    have hnd2 : k0 ∉ keysOf rest ∧ (keysOf rest).Nodup := List.nodup_cons.mp hnd
    rcases List.mem_cons.mp h with heq | hmem
    · obtain ⟨h1, h2, h3⟩ : k = k0 ∧ i = i0 ∧ o = o0 := by
        simpa [Prod.ext_iff] using heq
      subst h1
      subst h2
      subst h3
      simp [lookupTot]
    · have hkmem : k ∈ keysOf rest := List.mem_map_of_mem Prod.fst hmem
      have hne : k0 ≠ k := fun he => hnd2.1 (he ▸ hkmem)
      have hstep : lookupTot k ((k0, i0, o0) :: rest) = lookupTot k rest := by
        simp [lookupTot, if_neg hne]
      rw [hstep]
      exact ih hnd2.2 hmem

/-! ### Grand-total and report-shape lemmas -/

theorem UsageData.ext2 (a b : UsageData) (h1 : a.input_tokens = b.input_tokens)
    (h2 : a.output_tokens = b.output_tokens) (h3 : a.total_tokens = b.total_tokens)
    (h4 : a.cost_usd = b.cost_usd) : a = b := by
  cases a
  cases b
  simp_all

theorem foldl_add_input (l : List ModelUsage) (z : UsageData) :
    (l.foldl (fun t m => t.add m.usage) z).input_tokens
      = z.input_tokens + (l.map (fun m => m.usage.input_tokens)).sum := by
  induction l generalizing z with
  | nil => simp
  | cons m ms ih =>
    rw [List.foldl_cons, ih]
    simp [UsageData.add]
    omega

theorem foldl_add_output (l : List ModelUsage) (z : UsageData) :
    (l.foldl (fun t m => t.add m.usage) z).output_tokens
      = z.output_tokens + (l.map (fun m => m.usage.output_tokens)).sum := by
  induction l generalizing z with
  | nil => simp
  | cons m ms ih =>
    rw [List.foldl_cons, ih]
    simp [UsageData.add]
    omega

theorem foldl_add_total (l : List ModelUsage) (z : UsageData) :
    (l.foldl (fun t m => t.add m.usage) z).total_tokens
      = z.total_tokens + (l.map (fun m => m.usage.total_tokens)).sum := by
  induction l generalizing z with
  | nil => simp
  | cons m ms ih =>
    rw [List.foldl_cons, ih]
    simp [UsageData.add]
    omega

theorem combine_by_model (mu ku : List (Bucket UsageRow)) (cd : List (Bucket CostRow)) :
    (combine_data mu ku cd).by_model
      = sortDesc (fun m => m.usage.total_tokens) (modelSummaries mu) := rfl

theorem combine_by_key (mu ku : List (Bucket UsageRow)) (cd : List (Bucket CostRow)) :
    (combine_data mu ku cd).by_key
      = sortDesc (fun k => k.usage.total_tokens) (keySummaries ku) := rfl

theorem combine_total_cost (mu ku : List (Bucket UsageRow)) (cd : List (Bucket CostRow)) :
    (combine_data mu ku cd).total.cost_usd = costTotal cd := rfl

theorem combine_total_input (mu ku : List (Bucket UsageRow)) (cd : List (Bucket CostRow)) :
    (combine_data mu ku cd).total.input_tokens
      = sumFst (accumulate modelKey modelInput UsageRow.output_tokens mu) := by
  have h : (combine_data mu ku cd).total.input_tokens
      = ((modelSummaries mu).foldl (fun t m => t.add m.usage) ({} : UsageData)).input_tokens := rfl
  rw [h, foldl_add_input]
  simp only [modelSummaries, List.map_map]
  have h2 : ((fun m : ModelUsage => m.usage.input_tokens) ∘ fun p : String × Nat × Nat =>
      ModelUsage.mk p.1 (mkUsage p.2.1 p.2.2)) = fun p : String × Nat × Nat => p.2.1 := by
    funext p
    rfl
  rw [h2]
  simp [sumFst]

theorem combine_total_output (mu ku : List (Bucket UsageRow)) (cd : List (Bucket CostRow)) :
    (combine_data mu ku cd).total.output_tokens
      = sumSnd (accumulate modelKey modelInput UsageRow.output_tokens mu) := by
  have h : (combine_data mu ku cd).total.output_tokens
      = ((modelSummaries mu).foldl (fun t m => t.add m.usage) ({} : UsageData)).output_tokens := rfl
  rw [h, foldl_add_output]
  simp only [modelSummaries, List.map_map]
  have h2 : ((fun m : ModelUsage => m.usage.output_tokens) ∘ fun p : String × Nat × Nat =>
      ModelUsage.mk p.1 (mkUsage p.2.1 p.2.2)) = fun p : String × Nat × Nat => p.2.2 := by
    funext p
    rfl
  rw [h2]
  simp [sumSnd]

theorem combine_total_total (mu ku : List (Bucket UsageRow)) (cd : List (Bucket CostRow)) :
    (combine_data mu ku cd).total.total_tokens
      = sumFst (accumulate modelKey modelInput UsageRow.output_tokens mu)
        + sumSnd (accumulate modelKey modelInput UsageRow.output_tokens mu) := by
  have h : (combine_data mu ku cd).total.total_tokens
      = ((modelSummaries mu).foldl (fun t m => t.add m.usage) ({} : UsageData)).total_tokens := rfl
  rw [h, foldl_add_total]
  simp only [modelSummaries, List.map_map]
  have h2 : ((fun m : ModelUsage => m.usage.total_tokens) ∘
      fun p : String × Nat × Nat => ModelUsage.mk p.1 (mkUsage p.2.1 p.2.2))
      = fun p : String × Nat × Nat => p.2.1 + p.2.2 := by
    funext p
    simp [mkUsage]
  rw [h2]
  have h3 : ∀ l : List (String × Nat × Nat),
      (l.map (fun p => p.2.1 + p.2.2)).sum = sumFst l + sumSnd l := by
    intro l
    induction l with
    | nil => simp [sumFst, sumSnd]
    | cons p rest ih =>
      simp [sumFst, sumSnd] at ih ⊢
      omega
  rw [h3]
  simp

theorem sumFst_eq_rows (rowKey : UsageRow → String) (rowInput rowOutput : UsageRow → Nat)
    (buckets : List (Bucket UsageRow)) :
    sumFst (accumulate rowKey rowInput rowOutput buckets)
      = ((allRows buckets).map rowInput).sum := by
  rw [accumulate_eq_accRows, sumFst_accRows]
  simp [sumFst]

theorem sumSnd_eq_rows (rowKey : UsageRow → String) (rowInput rowOutput : UsageRow → Nat)
    (buckets : List (Bucket UsageRow)) :
    sumSnd (accumulate rowKey rowInput rowOutput buckets)
      = ((allRows buckets).map rowOutput).sum := by
  rw [accumulate_eq_accRows, sumSnd_accRows]
  simp [sumSnd]

theorem accumulate_keys (rowKey : UsageRow → String) (rowInput rowOutput : UsageRow → Nat)
    (buckets : List (Bucket UsageRow)) :
    keysOf (accumulate rowKey rowInput rowOutput buckets)
      = encounterOrder ((allRows buckets).map rowKey) := by
  rw [accumulate_eq_accRows, keysOf_accRows]
  rfl

theorem accumulate_lookup (n : String) (rowKey : UsageRow → String)
    (rowInput rowOutput : UsageRow → Nat) (buckets : List (Bucket UsageRow)) :
    lookupTot n (accumulate rowKey rowInput rowOutput buckets)
      = ((((allRows buckets).filter (fun r => rowKey r == n)).map rowInput).sum,
         (((allRows buckets).filter (fun r => rowKey r == n)).map rowOutput).sum) := by
  rw [accumulate_eq_accRows, lookupTot_accRows]
  simp [lookupTot]

theorem mem_by_model (mu ku : List (Bucket UsageRow)) (cd : List (Bucket CostRow))
    {m : ModelUsage} (h : m ∈ (combine_data mu ku cd).by_model) :
    ∃ p ∈ accumulate modelKey modelInput UsageRow.output_tokens mu,
      m = ModelUsage.mk p.1 (mkUsage p.2.1 p.2.2) := by
  have h2 : m ∈ modelSummaries mu := by
    have hperm := sortDesc_perm (fun m : ModelUsage => m.usage.total_tokens) (modelSummaries mu)
    rw [combine_by_model] at h
    exact hperm.mem_iff.mp h
  rcases List.mem_map.mp h2 with ⟨p, hp, he⟩
  exact ⟨p, hp, he.symm⟩

theorem mem_by_key (mu ku : List (Bucket UsageRow)) (cd : List (Bucket CostRow))
    {k : ApiKeyUsage} (h : k ∈ (combine_data mu ku cd).by_key) :
    ∃ p ∈ accumulate credKey credInput UsageRow.output_tokens ku,
      k = ApiKeyUsage.mk p.1 (keyHint p.1) (mkUsage p.2.1 p.2.2) := by
  have h2 : k ∈ keySummaries ku := by
    have hperm := sortDesc_perm (fun k : ApiKeyUsage => k.usage.total_tokens) (keySummaries ku)
    rw [combine_by_key] at h
    exact hperm.mem_iff.mp h
  rcases List.mem_map.mp h2 with ⟨p, hp, he⟩
  exact ⟨p, hp, he.symm⟩

theorem modelSummaries_names (mu : List (Bucket UsageRow)) :
    (modelSummaries mu).map ModelUsage.model
      = encounterOrder ((allRows mu).map modelKey) := by
  rw [modelSummaries, List.map_map]
  have h : (ModelUsage.model ∘ fun p : String × Nat × Nat =>
      ModelUsage.mk p.1 (mkUsage p.2.1 p.2.2)) = Prod.fst := by
    funext p
    rfl
  rw [h]
  exact accumulate_keys modelKey modelInput UsageRow.output_tokens mu

theorem keySummaries_names (ku : List (Bucket UsageRow)) :
    (keySummaries ku).map ApiKeyUsage.key_id
      = encounterOrder ((allRows ku).map credKey) := by
  rw [keySummaries, List.map_map]
  have h : (ApiKeyUsage.key_id ∘ fun p : String × Nat × Nat =>
      ApiKeyUsage.mk p.1 (keyHint p.1) (mkUsage p.2.1 p.2.2)) = Prod.fst := by
    funext p
    rfl
  rw [h]
  exact accumulate_keys credKey credInput UsageRow.output_tokens ku

theorem by_model_member_eq (mu ku : List (Bucket UsageRow)) (cd : List (Bucket CostRow))
    {m : ModelUsage} (h : m ∈ (combine_data mu ku cd).by_model) :
    m.usage.input_tokens
        = (((allRows mu).filter (fun r => modelKey r == m.model)).map modelInput).sum
    ∧ m.usage.output_tokens
        = (((allRows mu).filter (fun r => modelKey r == m.model)).map UsageRow.output_tokens).sum
    ∧ m.usage.total_tokens = m.usage.input_tokens + m.usage.output_tokens
    ∧ m.usage.cost_usd = 0 := by
  rcases mem_by_model mu ku cd h with ⟨p, hp, rfl⟩
  obtain ⟨n, i, o⟩ := p
  have hnd : (keysOf (accumulate modelKey modelInput UsageRow.output_tokens mu)).Nodup := by
    rw [accumulate_keys]
    exact encounterOrder_nodup _
  have hl := lookupTot_of_mem hnd hp
  have hl2 := accumulate_lookup n modelKey modelInput UsageRow.output_tokens mu
  rw [hl] at hl2
  exact ⟨congrArg Prod.fst hl2, congrArg Prod.snd hl2, rfl, rfl⟩

theorem by_key_member_eq (mu ku : List (Bucket UsageRow)) (cd : List (Bucket CostRow))
    {k : ApiKeyUsage} (h : k ∈ (combine_data mu ku cd).by_key) :
    k.usage.input_tokens
        = (((allRows ku).filter (fun r => credKey r == k.key_id)).map credInput).sum
    ∧ k.usage.output_tokens
        = (((allRows ku).filter (fun r => credKey r == k.key_id)).map UsageRow.output_tokens).sum
    ∧ k.key_hint = keyHint k.key_id
    ∧ k.usage.total_tokens = k.usage.input_tokens + k.usage.output_tokens
    ∧ k.usage.cost_usd = 0 := by
  rcases mem_by_key mu ku cd h with ⟨p, hp, rfl⟩
  obtain ⟨n, i, o⟩ := p
  have hnd : (keysOf (accumulate credKey credInput UsageRow.output_tokens ku)).Nodup := by
    rw [accumulate_keys]
    exact encounterOrder_nodup _
  have hl := lookupTot_of_mem hnd hp
  have hl2 := accumulate_lookup n credKey credInput UsageRow.output_tokens ku
  rw [hl] at hl2
  exact ⟨congrArg Prod.fst hl2, congrArg Prod.snd hl2, rfl, rfl, rfl⟩

/-! ### Claim theorems -/

/-- C1: per-model aggregation computes, for each result row, effective
input tokens as `uncached + cache_read + ephemeral_1h + ephemeral_5m`
and output tokens verbatim; rows normalizing to the same display name
are merged into a single summary holding the sums; the grand total's
token fields are the monoid-sum of the model summaries (equivalently,
the sums of the per-row formula over all rows); and the grand total
and the per-name totals are independent of bucket/row order. -/
theorem c1_per_model_aggregation (mu ku : List (Bucket UsageRow)) (cd : List (Bucket CostRow)) :
    (∀ m ∈ (combine_data mu ku cd).by_model,
        m.usage.input_tokens
          = (((allRows mu).filter (fun r => modelKey r == m.model)).map
              (fun r => r.uncached_input_tokens + r.cache_read_input_tokens
                + r.cache_creation.ephemeral_1h_input_tokens
                + r.cache_creation.ephemeral_5m_input_tokens)).sum
        ∧ m.usage.output_tokens
          = (((allRows mu).filter (fun r => modelKey r == m.model)).map
              UsageRow.output_tokens).sum)
    ∧ ((combine_data mu ku cd).by_model.map ModelUsage.model).Nodup
    ∧ (∀ n, n ∈ (combine_data mu ku cd).by_model.map ModelUsage.model
          ↔ n ∈ (allRows mu).map modelKey)
    ∧ (combine_data mu ku cd).total.input_tokens
        = ((combine_data mu ku cd).by_model.map (fun m => m.usage.input_tokens)).sum
    ∧ (combine_data mu ku cd).total.output_tokens
        = ((combine_data mu ku cd).by_model.map (fun m => m.usage.output_tokens)).sum
    ∧ (combine_data mu ku cd).total.total_tokens
        = ((combine_data mu ku cd).by_model.map (fun m => m.usage.total_tokens)).sum
    ∧ (combine_data mu ku cd).total.input_tokens
        = ((allRows mu).map (fun r => r.uncached_input_tokens + r.cache_read_input_tokens
            + r.cache_creation.ephemeral_1h_input_tokens
            + r.cache_creation.ephemeral_5m_input_tokens)).sum
    ∧ (combine_data mu ku cd).total.output_tokens
        = ((allRows mu).map UsageRow.output_tokens).sum
    ∧ (∀ mu2, List.Perm (allRows mu2) (allRows mu) →
        (combine_data mu2 ku cd).total = (combine_data mu ku cd).total
        ∧ ∀ n, lookupTot n (accumulate modelKey modelInput UsageRow.output_tokens mu2)
            = lookupTot n (accumulate modelKey modelInput UsageRow.output_tokens mu)) := by
  have hpermM : List.Perm ((combine_data mu ku cd).by_model) (modelSummaries mu) := by
    rw [combine_by_model]
    exact sortDesc_perm _ _
  have hnames : List.Perm ((combine_data mu ku cd).by_model.map ModelUsage.model)
      (encounterOrder ((allRows mu).map modelKey)) := by
    rw [show encounterOrder ((allRows mu).map modelKey)
        = (modelSummaries mu).map ModelUsage.model from (modelSummaries_names mu).symm]
    exact hpermM.map _
  refine ⟨?_, ?_, ?_, ?_, ?_, ?_, ?_, ?_, ?_⟩
  · intro m hm
    have h := by_model_member_eq mu ku cd hm
    exact ⟨h.1, h.2.1⟩
  · refine hnames.nodup_iff.mpr (encounterOrder_nodup _)
  · intro n
    rw [hnames.mem_iff, mem_encounterOrder]
  · rw [combine_total_input]
    have h1 : ((combine_data mu ku cd).by_model.map (fun m => m.usage.input_tokens)).sum
        = ((modelSummaries mu).map (fun m => m.usage.input_tokens)).sum :=
      (hpermM.map _).sum_eq
    rw [h1, modelSummaries, List.map_map]
    have h2 : ((fun m : ModelUsage => m.usage.input_tokens) ∘ fun p : String × Nat × Nat =>
        ModelUsage.mk p.1 (mkUsage p.2.1 p.2.2)) = fun p : String × Nat × Nat => p.2.1 := by
      funext p
      rfl
    rw [h2]
    rfl
  · rw [combine_total_output]
    have h1 : ((combine_data mu ku cd).by_model.map (fun m => m.usage.output_tokens)).sum
        = ((modelSummaries mu).map (fun m => m.usage.output_tokens)).sum :=
      (hpermM.map _).sum_eq
    rw [h1, modelSummaries, List.map_map]
    have h2 : ((fun m : ModelUsage => m.usage.output_tokens) ∘ fun p : String × Nat × Nat =>
        ModelUsage.mk p.1 (mkUsage p.2.1 p.2.2)) = fun p : String × Nat × Nat => p.2.2 := by
      funext p
      rfl
    rw [h2]
    rfl
  · rw [combine_total_total]
    have h1 : ((combine_data mu ku cd).by_model.map (fun m => m.usage.total_tokens)).sum
        = ((modelSummaries mu).map (fun m => m.usage.total_tokens)).sum :=
      (hpermM.map _).sum_eq
    rw [h1, modelSummaries, List.map_map]
    have h2 : ((fun m : ModelUsage => m.usage.total_tokens) ∘ fun p : String × Nat × Nat =>
        ModelUsage.mk p.1 (mkUsage p.2.1 p.2.2))
        = fun p : String × Nat × Nat => p.2.1 + p.2.2 := by
      funext p
      rfl
    rw [h2]
    induction accumulate modelKey modelInput UsageRow.output_tokens mu with
    | nil => simp [sumFst, sumSnd]
    | cons p rest ih =>
      simp [sumFst, sumSnd] at ih ⊢
      omega
  · rw [combine_total_input, sumFst_eq_rows]
    rfl
  · rw [combine_total_output, sumSnd_eq_rows]
  · intro mu2 hperm
    constructor
    · apply UsageData.ext2
      · rw [combine_total_input, combine_total_input, sumFst_eq_rows, sumFst_eq_rows]
        exact (hperm.map modelInput).sum_eq
      · rw [combine_total_output, combine_total_output, sumSnd_eq_rows, sumSnd_eq_rows]
        exact (hperm.map UsageRow.output_tokens).sum_eq
      · rw [combine_total_total, combine_total_total,
          sumFst_eq_rows, sumFst_eq_rows, sumSnd_eq_rows, sumSnd_eq_rows,
          (hperm.map modelInput).sum_eq, (hperm.map UsageRow.output_tokens).sum_eq]
      · rw [combine_total_cost, combine_total_cost]
    · intro n
      rw [accumulate_lookup, accumulate_lookup]
      have h1 := ((hperm.filter (fun r => modelKey r == n)).map modelInput).sum_eq
      have h2 := ((hperm.filter (fun r => modelKey r == n)).map UsageRow.output_tokens).sum_eq
      rw [h1, h2]

/-- C2: per-credential aggregation computes effective input tokens as
`uncached + cache_read` only (no cache-creation sub-categories); a row
with no credential identifier is attributed to the synthetic
`workbench` entry; the display hint is `"Workbench"` for `workbench`,
`"..."` plus the last six characters for identifiers longer than six
characters, and the identifier verbatim otherwise. -/
theorem c2_per_credential_aggregation (mu ku : List (Bucket UsageRow))
    (cd : List (Bucket CostRow)) :
    (∀ k ∈ (combine_data mu ku cd).by_key,
        k.usage.input_tokens
          = (((allRows ku).filter (fun r => credKey r == k.key_id)).map
              (fun r => r.uncached_input_tokens + r.cache_read_input_tokens)).sum
        ∧ k.usage.output_tokens
          = (((allRows ku).filter (fun r => credKey r == k.key_id)).map
              UsageRow.output_tokens).sum
        ∧ k.key_hint = keyHint k.key_id)
    ∧ (∀ r : UsageRow, r.api_key_id = none → credKey r = "workbench")
    ∧ keyHint "workbench" = "Workbench"
    ∧ (∀ id0 : String, id0 ≠ "workbench" → 6 < id0.length →
        keyHint id0 = "..." ++ id0.drop (id0.length - 6))
    ∧ (∀ id0 : String, id0 ≠ "workbench" → id0.length ≤ 6 → keyHint id0 = id0) := by
  refine ⟨?_, ?_, rfl, ?_, ?_⟩
  · intro k hk
    have h := by_key_member_eq mu ku cd hk
    exact ⟨h.1, h.2.1, h.2.2.1⟩
  · intro r hr
    simp [credKey, hr]
  · intro id0 h1 h2
    rw [keyHint, if_neg h1, if_pos h2]
  · intro id0 h1 h2
    rw [keyHint, if_neg h1, if_neg (by omega : ¬ id0.length > 6)]

/-- C3: the reset-time formatter returns `"--"` for a missing (or
empty, hence falsy) input, `"?"` when the cleaned input does not
parse, `"{hours}h {minutes}m"` or `"{minutes}m"` (floored) when the
whole-day difference is 0, `"Tomorrow"` when it is 1, and the
abbreviated month plus zero-padded day otherwise. -/
theorem c3_reset_time_formatting (parse : String → Option ParsedTime) (now : Int)
    (s : String) (dt : ParsedTime) :
    format_reset_time parse now none = "--"
    ∧ format_reset_time parse now (some "") = "--"
    ∧ (s ≠ "" → parse (stripFrac s) = none → format_reset_time parse now (some s) = "?")
    ∧ (s ≠ "" → parse (stripFrac s) = some dt →
        ((0 ≤ dt.epochSec - now → dt.epochSec - now < 86400 →
          ((0 < (dt.epochSec - now) / 3600 →
            format_reset_time parse now (some s)
              = toString ((dt.epochSec - now) / 3600) ++ "h "
                ++ toString (((dt.epochSec - now) % 3600) / 60) ++ "m")
          ∧ ((dt.epochSec - now) / 3600 = 0 →
            format_reset_time parse now (some s)
              = toString (((dt.epochSec - now) % 3600) / 60) ++ "m")))
        ∧ (86400 ≤ dt.epochSec - now → dt.epochSec - now < 172800 →
            format_reset_time parse now (some s) = "Tomorrow")
        ∧ ((dt.epochSec - now) / 86400 ≠ 0 → (dt.epochSec - now) / 86400 ≠ 1 →
            format_reset_time parse now (some s)
              = monthAbbrev dt.month ++ " " ++ pad2 dt.day))) := by
  refine ⟨rfl, rfl, ?_, ?_⟩
  · intro hs hp
    simp only [format_reset_time, if_neg hs, hp]
  · intro hs hp
    simp only [format_reset_time, if_neg hs, hp]
    have hsecs : 0 ≤ dt.epochSec - now → dt.epochSec - now < 86400 →
        (dt.epochSec - now) % 86400 = dt.epochSec - now := by
      omega
    refine ⟨fun h0 h1 => ?_, fun h0 h1 => ?_, fun h0 h1 => ?_⟩
    · have hdays : (dt.epochSec - now) / 86400 = 0 := by omega
      rw [hsecs h0 h1, if_pos hdays]
      constructor
      · intro hpos
        rw [if_pos hpos]
      · intro hzero
        rw [if_neg (by omega : ¬ (dt.epochSec - now) / 3600 > 0)]
    · have hdays : (dt.epochSec - now) / 86400 = 1 := by omega
      rw [if_neg (by omega : ¬ (dt.epochSec - now) / 86400 = 0), if_pos hdays]
    · rw [if_neg h0, if_neg h1]

/-- C4: `UsageData` addition is associative and commutative, and the
all-zero default value is a left identity, on every component
including the cost (modelled as an exact rational). -/
theorem c4_usage_figures_monoid (X Y Z : UsageData) :
    (X.add Y).add Z = X.add (Y.add Z)
    ∧ X.add Y = Y.add X
    ∧ UsageData.add {} X = X := by
  refine ⟨?_, ?_, ?_⟩
  · apply UsageData.ext2
    · simp [UsageData.add]
      omega
    · simp [UsageData.add]
      omega
    · simp [UsageData.add]
      omega
    · simp [UsageData.add]
      ring
  · apply UsageData.ext2
    · simp [UsageData.add]
      omega
    · simp [UsageData.add]
      omega
    · simp [UsageData.add]
      omega
    · simp [UsageData.add]
      ring
  · apply UsageData.ext2
    · simp [UsageData.add]
    · simp [UsageData.add]
    · simp [UsageData.add]
    · simp [UsageData.add]

/-- C5: the cost fetcher widens the requested window to full UTC days:
the widened start is the midnight of the start's day, the widened end
is the midnight of the day after the end's day, and the widened window
contains the requested one. -/
theorem c5_cost_window_widening (s e : Int) :
    (widen_cost_window s e).1 % 86400 = 0
    ∧ (widen_cost_window s e).1 ≤ s
    ∧ s < (widen_cost_window s e).1 + 86400
    ∧ (widen_cost_window s e).2 = (e - e % 86400) + 86400
    ∧ (widen_cost_window s e).2 % 86400 = 0
    ∧ e < (widen_cost_window s e).2 := by
  simp only [widen_cost_window]
  omega

/-- C6: a failed cost fetch yields the empty sequence; combining with
it still produces the correct token totals, the grand total's cost is
`0`, the summary lists do not depend on the cost data at all, and no
model or credential summary ever carries cost. -/
theorem c6_cost_failure_degrades (msg : String) (mu ku : List (Bucket UsageRow))
    (cd : List (Bucket CostRow)) :
    fetchCostData (Except.error msg) = []
    ∧ (combine_data mu ku (fetchCostData (Except.error msg))).total.cost_usd = 0
    ∧ (combine_data mu ku (fetchCostData (Except.error msg))).by_model
        = (combine_data mu ku cd).by_model
    ∧ (combine_data mu ku (fetchCostData (Except.error msg))).by_key
        = (combine_data mu ku cd).by_key
    ∧ (combine_data mu ku (fetchCostData (Except.error msg))).total.input_tokens
        = ((allRows mu).map modelInput).sum
    ∧ (combine_data mu ku (fetchCostData (Except.error msg))).total.output_tokens
        = ((allRows mu).map UsageRow.output_tokens).sum
    ∧ (combine_data mu ku (fetchCostData (Except.error msg))).total.total_tokens
        = ((allRows mu).map modelInput).sum + ((allRows mu).map UsageRow.output_tokens).sum
    ∧ (∀ m ∈ (combine_data mu ku cd).by_model, m.usage.cost_usd = 0)
    ∧ (∀ k ∈ (combine_data mu ku cd).by_key, k.usage.cost_usd = 0) := by
  refine ⟨rfl, rfl, rfl, rfl, ?_, ?_, ?_, ?_, ?_⟩
  · rw [combine_total_input, sumFst_eq_rows]
  · rw [combine_total_output, sumSnd_eq_rows]
  · rw [combine_total_total, sumFst_eq_rows, sumSnd_eq_rows]
  · intro m hm
    exact (by_model_member_eq mu ku cd hm).2.2.2
  · intro k hk
    exact (by_key_member_eq mu ku cd hk).2.2.2.2

/-- C7: both summary lists are sorted by total tokens descending;
filtering either list at any total-token value yields exactly the
corresponding slice of the pre-sort first-encounter list (stability),
whose name order is the order of first encounter in the input. -/
theorem c7_report_ordering (mu ku : List (Bucket UsageRow)) (cd : List (Bucket CostRow)) :
    ((combine_data mu ku cd).by_model).Pairwise
      (fun a b => b.usage.total_tokens ≤ a.usage.total_tokens)
    ∧ ((combine_data mu ku cd).by_key).Pairwise
      (fun a b => b.usage.total_tokens ≤ a.usage.total_tokens)
    ∧ (∀ t, (combine_data mu ku cd).by_model.filter (fun m => m.usage.total_tokens == t)
        = (modelSummaries mu).filter (fun m => m.usage.total_tokens == t))
    ∧ (∀ t, (combine_data mu ku cd).by_key.filter (fun k => k.usage.total_tokens == t)
        = (keySummaries ku).filter (fun k => k.usage.total_tokens == t))
    ∧ (modelSummaries mu).map ModelUsage.model = encounterOrder ((allRows mu).map modelKey)
    ∧ (keySummaries ku).map ApiKeyUsage.key_id = encounterOrder ((allRows ku).map credKey) := by
  refine ⟨?_, ?_, ?_, ?_, modelSummaries_names mu, keySummaries_names ku⟩
  · rw [combine_by_model]
    exact sortDesc_pairwise _ _
  · rw [combine_by_key]
    exact sortDesc_pairwise _ _
  · intro t
    rw [combine_by_model]
    exact sortDesc_filter _ _ t
  · intro t
    rw [combine_by_key]
    exact sortDesc_filter _ _ t

/-- C8: `total_tokens = input_tokens + output_tokens` is established
by the constructor call used for every summary, holds for the grand
total and every model/credential summary of a report, and is preserved
by `UsageData` addition. -/
theorem c8_total_invariant (mu ku : List (Bucket UsageRow)) (cd : List (Bucket CostRow))
    (X Y : UsageData) :
    (X.total_tokens = X.input_tokens + X.output_tokens →
      Y.total_tokens = Y.input_tokens + Y.output_tokens →
      (X.add Y).total_tokens = (X.add Y).input_tokens + (X.add Y).output_tokens)
    ∧ (∀ i o : Nat, (mkUsage i o).total_tokens = (mkUsage i o).input_tokens
        + (mkUsage i o).output_tokens)
    ∧ (combine_data mu ku cd).total.total_tokens
        = (combine_data mu ku cd).total.input_tokens
          + (combine_data mu ku cd).total.output_tokens
    ∧ (∀ m ∈ (combine_data mu ku cd).by_model,
        m.usage.total_tokens = m.usage.input_tokens + m.usage.output_tokens)
    ∧ (∀ k ∈ (combine_data mu ku cd).by_key,
        k.usage.total_tokens = k.usage.input_tokens + k.usage.output_tokens) := by
  refine ⟨?_, fun i o => rfl, ?_, ?_, ?_⟩
  · intro hX hY
    simp [UsageData.add]
    omega
  · rw [combine_total_total, combine_total_input, combine_total_output]
  · intro m hm
    exact (by_model_member_eq mu ku cd hm).2.2.1
  · intro k hk
    exact (by_key_member_eq mu ku cd hk).2.2.2.1

/-- C9: the time-window resolver sends `"today"` to (today's midnight
UTC, now), `"7days"` to (midnight 6 days earlier, now), `"30days"` to
(midnight 29 days earlier, now), silently treats any other token like
`"today"`, and serializes both bounds with the
`%Y-%m-%dT%H:%M:%SZ` renderer. -/
theorem c9_time_window_resolution (now : Int) (tf : String) :
    get_date_range "today" now = (formatIso (now - now % 86400), formatIso now)
    ∧ (now - now % 86400) % 86400 = 0
    ∧ now - now % 86400 ≤ now
    ∧ now < (now - now % 86400) + 86400
    ∧ get_date_range "7days" now
        = (formatIso ((now - now % 86400) - 6 * 86400), formatIso now)
    ∧ get_date_range "30days" now
        = (formatIso ((now - now % 86400) - 29 * 86400), formatIso now)
    ∧ (tf ≠ "today" → tf ≠ "7days" → tf ≠ "30days" →
        get_date_range tf now = get_date_range "today" now) := by
  refine ⟨rfl, by omega, by omega, by omega, rfl, rfl, ?_⟩
  intro h1 h2 h3
  have hr : get_date_range "today" now = (formatIso (now - now % 86400), formatIso now) := rfl
  rw [hr]
  simp only [get_date_range, if_neg h1, if_neg h2, if_neg h3]

/-- C10: a parseable reset timestamp lying in the past by less than 24
hours has whole-day difference `-1`, so the formatter falls through to
the final branch and renders the abbreviated month plus zero-padded
day. -/
theorem c10_past_reset_fallthrough (parse : String → Option ParsedTime) (now : Int)
    (s : String) (dt : ParsedTime) (hs : s ≠ "") (hp : parse (stripFrac s) = some dt)
    (hpast : dt.epochSec < now) (hlt : now - dt.epochSec < 86400) :
    (dt.epochSec - now) / 86400 = -1
    ∧ format_reset_time parse now (some s) = monthAbbrev dt.month ++ " " ++ pad2 dt.day := by
  have hdays : (dt.epochSec - now) / 86400 = -1 := by omega
  refine ⟨hdays, ?_⟩
  simp only [format_reset_time, if_neg hs, hp]
  rw [if_neg (by omega : ¬ (dt.epochSec - now) / 86400 = 0),
    if_neg (by omega : ¬ (dt.epochSec - now) / 86400 = 1)]

/-! ### Witnesses -/

/-- Witness for C1 at the two-Opus-row scenario, including the
order-independence part at a reordered bucket list. -/
theorem c1_witness :
    ModelUsage.mk "Opus" (mkUsage 300 60)
        ∈ (combine_data demoModelBuckets demoKeyBuckets []).by_model
    ∧ (ModelUsage.mk "Opus" (mkUsage 300 60)).usage.input_tokens
        = (((allRows demoModelBuckets).filter
              (fun r => modelKey r == (ModelUsage.mk "Opus" (mkUsage 300 60)).model)).map
            (fun r => r.uncached_input_tokens + r.cache_read_input_tokens
              + r.cache_creation.ephemeral_1h_input_tokens
              + r.cache_creation.ephemeral_5m_input_tokens)).sum
    ∧ (combine_data demoModelBucketsRev demoKeyBuckets []).total
        = (combine_data demoModelBuckets demoKeyBuckets []).total := by
  have hmem : ModelUsage.mk "Opus" (mkUsage 300 60)
      ∈ (combine_data demoModelBuckets demoKeyBuckets []).by_model := by decide
  have hperm : List.Perm (allRows demoModelBucketsRev) (allRows demoModelBuckets) := by decide
  exact ⟨hmem,
    ((c1_per_model_aggregation demoModelBuckets demoKeyBuckets []).1 _ hmem).1,
    ((c1_per_model_aggregation demoModelBuckets demoKeyBuckets
      []).2.2.2.2.2.2.2.2 demoModelBucketsRev hperm).1⟩

/-- Witness for C2 at the scenario key id, with the cache-creation
counts of the keyed row ignored (42 = 40 + 2). -/
theorem c2_witness :
    ApiKeyUsage.mk "sk-ant-api03-ABCDE123456" "...123456" (mkUsage 42 5)
        ∈ (combine_data demoModelBuckets demoKeyBuckets []).by_key
    ∧ (ApiKeyUsage.mk "sk-ant-api03-ABCDE123456" "...123456" (mkUsage 42 5)).usage.input_tokens
        = (((allRows demoKeyBuckets).filter
              (fun r => credKey r == "sk-ant-api03-ABCDE123456")).map
            (fun r => r.uncached_input_tokens + r.cache_read_input_tokens)).sum
    ∧ keyHint "sk-ant-api03-ABCDE123456"
        = "..." ++ "sk-ant-api03-ABCDE123456".drop ("sk-ant-api03-ABCDE123456".length - 6) := by
  have hmem : ApiKeyUsage.mk "sk-ant-api03-ABCDE123456" "...123456" (mkUsage 42 5)
      ∈ (combine_data demoModelBuckets demoKeyBuckets []).by_key := by decide
  exact ⟨hmem,
    ((c2_per_credential_aggregation demoModelBuckets demoKeyBuckets []).1 _ hmem).1,
    (c2_per_credential_aggregation demoModelBuckets demoKeyBuckets []).2.2.2.1
      "sk-ant-api03-ABCDE123456" (by decide) (by decide)⟩

/-- Witness for C3: a reset 90 minutes in the future with a whole-day
difference of 0 renders as `"1h 30m"`. -/
theorem c3_witness :
    format_reset_time demoParse 0 (some "1970-01-01T01:30:00+00:00") = "1h 30m" := by
  have h := (c3_reset_time_formatting demoParse 0 "1970-01-01T01:30:00+00:00"
    ⟨5400, 1, 1⟩).2.2.2 (by decide) (by decide)
  have h2 := (h.1 (by decide) (by decide)).1 (by decide)
  exact h2.trans (by decide)

/-- Witness for C6 at a failed cost fetch and a nonempty alternative
cost input. -/
theorem c6_witness :
    fetchCostData (Except.error "boom") = ([] : List (Bucket CostRow))
    ∧ (combine_data demoModelBuckets demoKeyBuckets
        (fetchCostData (Except.error "boom"))).total.cost_usd = 0
    ∧ ModelUsage.mk "Opus" (mkUsage 300 60)
        ∈ (combine_data demoModelBuckets demoKeyBuckets [Bucket.mk [CostRow.mk 5]]).by_model
    ∧ (ModelUsage.mk "Opus" (mkUsage 300 60)).usage.cost_usd = 0 := by
  have hmem : ModelUsage.mk "Opus" (mkUsage 300 60)
      ∈ (combine_data demoModelBuckets demoKeyBuckets [Bucket.mk [CostRow.mk 5]]).by_model := by
    decide
  exact ⟨(c6_cost_failure_degrades "boom" demoModelBuckets demoKeyBuckets []).1,
    (c6_cost_failure_degrades "boom" demoModelBuckets demoKeyBuckets []).2.1,
    hmem,
    (c6_cost_failure_degrades "boom" demoModelBuckets demoKeyBuckets
      [Bucket.mk [CostRow.mk 5]]).2.2.2.2.2.2.2.1 _ hmem⟩

/-- Witness for C8 at concrete figures and the demo report. -/
theorem c8_witness :
    ((UsageData.mk 1 2 3 0).add (UsageData.mk 4 5 9 0)).total_tokens
        = ((UsageData.mk 1 2 3 0).add (UsageData.mk 4 5 9 0)).input_tokens
          + ((UsageData.mk 1 2 3 0).add (UsageData.mk 4 5 9 0)).output_tokens
    ∧ (combine_data demoModelBuckets demoKeyBuckets []).total.total_tokens
        = (combine_data demoModelBuckets demoKeyBuckets []).total.input_tokens
          + (combine_data demoModelBuckets demoKeyBuckets []).total.output_tokens := by
  refine ⟨?_, ?_⟩
  · exact (c8_total_invariant demoModelBuckets demoKeyBuckets []
      (UsageData.mk 1 2 3 0) (UsageData.mk 4 5 9 0)).1 (by decide) (by decide)
  · exact (c8_total_invariant demoModelBuckets demoKeyBuckets []
      ({} : UsageData) ({} : UsageData)).2.2.1

/-- Witness for C9: an unrecognized token falls back to the `"today"`
window, evaluated at 2026-10-12T14:30:00Z. -/
theorem c9_witness :
    get_date_range "yesterday" 1791815400 = get_date_range "today" 1791815400
    ∧ get_date_range "today" 1791815400
        = ("2026-10-12T00:00:00Z", "2026-10-12T14:30:00Z") := by
  refine ⟨(c9_time_window_resolution 1791815400 "yesterday").2.2.2.2.2.2
    (by decide) (by decide) (by decide), by decide⟩

/-- Witness for C10: a reset two hours in the past renders as the
month-day of that past instant. -/
theorem c10_witness :
    format_reset_time demoParse 0 (some "1969-12-31T22:00:00+00:00") = "Dec 31" := by
  have h := c10_past_reset_fallthrough demoParse 0 "1969-12-31T22:00:00+00:00"
    ⟨-7200, 12, 31⟩ (by decide) (by decide) (by decide) (by decide)
  exact h.2.trans (by decide)

end UsageTracker
